import Mathlib

/-
Verification of the chain-of-responsibility dispatch pipeline
(src/behavioral_patterns/chain_of_responsibility/main.cpp).

Embedding: handlers live in a store (a list of handler objects indexed by
position); each handler object carries its concrete kind (MonkeyHandler,
SquirrelHandler, DogHandler) and an optional successor index, mirroring the
shared-pointer `next_handler_` field.  `SetNext` and `Handle` are translated
with explicit state passing: each returns the (possibly updated) store
together with its C++ return value.  `Handle` takes a fuel argument because
the C++ recursion is unbounded on cyclic chains; `none` marks a run that
exhausted its fuel or dereferenced a dangling index (both impossible on
well-formed acyclic chains, as proved below).
-/

set_option maxHeartbeats 1000000

namespace ChainDemo

/-- The three concrete handler classes of the source file. -/
inductive HKind : Type where
  | monkey
  | squirrel
  | dog
deriving DecidableEq

/-- The literal each concrete handler compares the request against
(`request == "Banana"` in MonkeyHandler, etc.). -/
def litOf : HKind → String
  | .monkey => "Banana"
  | .squirrel => "Nut"
  | .dog => "MeatBall"

/-- The apostrophe character, used in the handlers' output strings. -/
def apos : String := String.singleton (Char.ofNat 39)

/-- The animal name each concrete handler prints. -/
def nameOf : HKind → String
  | .monkey => "Monkey"
  | .squirrel => "Squirrel"
  | .dog => "Dog"

/-- The descriptive result a matching handler returns:
`"Monkey: I'll eat the " + request + ".\n"` and its analogues. -/
def descrOf (k : HKind) (r : String) : String :=
  nameOf k ++ ": I" ++ apos ++ "ll eat the " ++ r ++ ".\n"

/-- One handler object: its concrete kind plus the `next_handler_` field
(`none` models the null shared pointer, `some j` an installed successor at
store index `j`). -/
structure HandlerObj : Type where
  kind : HKind
  next : Option Nat
deriving DecidableEq

/-- The heap of handler objects, indexed by position. -/
abbrev Store := List HandlerObj

/-- The constructor `AbstractHandler() : next_handler_(nullptr)`:
a fresh handler of kind `k` with no successor installed. -/
def newHandler (k : HKind) : HandlerObj := ⟨k, none⟩

/-- Overwrite the `next_handler_` field of the handler at index `i`,
leaving every other handler untouched. -/
def storeSet : Store → Nat → Option Nat → Store
  | [], _, _ => []
  | h :: t, 0, j => ⟨h.kind, j⟩ :: t
  | h :: t, n + 1, j => h :: storeSet t n j

/-- `AbstractHandler::SetNext`: `this->next_handler_ = handler; return handler;`.
The receiver is index `i`, the argument is `j`; the returned value is the
argument, not the receiver. -/
def SetNext (s : Store) (i : Nat) (j : Option Nat) : Store × Option Nat :=
  (storeSet s i j, j)

/-- The `Handle` virtual call, state-threaded and fuel-bounded.  At handler
`i`: if the request equals the handler's literal, return the descriptive
result (the concrete override's then-branch); otherwise run
`AbstractHandler::Handle`, which forwards to the successor when one is
installed and returns the empty string otherwise.  `none` marks fuel
exhaustion (a cyclic chain) or a dangling index. -/
def HandleOp (s : Store) : Nat → Nat → String → Store × Option String
  | 0, _, _ => (s, none)
  | fuel + 1, i, r =>
    match s[i]? with
    | none => (s, none)
    | some h =>
      if r = litOf h.kind then
        (s, some (descrOf h.kind r))
      else
        match h.next with
        | some j =>
          let p := HandleOp s fuel j r
          (p.1, p.2)
        | none => (s, some "")

/-- The result component of `HandleOp`. -/
def HandleF (s : Store) (fuel i : Nat) (r : String) : Option String :=
  (HandleOp s fuel i r).2

/-- `Handle` with fuel equal to the store size, enough for every acyclic
chain. -/
def Handle (s : Store) (i : Nat) (r : String) : Option String :=
  HandleF s s.length i r

/-- The three handlers of `main`, freshly constructed and not yet linked:
monkey at index 0, squirrel at 1, dog at 2. -/
def demoStore0 : Store := [newHandler .monkey, newHandler .squirrel, newHandler .dog]

/-- The chain built by `monkey->SetNext(squirrel)->SetNext(dog)`: the second
call's receiver is the value returned by the first. -/
def demoStore : Store :=
  let r1 := SetNext demoStore0 0 (some 1)
  match r1.2 with
  | some j => (SetNext r1.1 j (some 2)).1
  | none => r1.1

/-- The chain of store indices reachable from entry `i` by following
successor links until a handler with no successor: exists exactly when that
traversal terminates, i.e. when the chain from `i` is acyclic and every
link is valid. -/
inductive PathFrom (s : Store) : Nat → List Nat → Prop where
  | last (i : Nat) (h : HandlerObj) (hget : s[i]? = some h)
      (hnext : h.next = none) : PathFrom s i [i]
  | step (i : Nat) (h : HandlerObj) (j : Nat) (p : List Nat)
      (hget : s[i]? = some h) (hnext : h.next = some j)
      (htail : PathFrom s j p) : PathFrom s i (i :: p)

/-- Handler `q` of store `s` claims request `r`. -/
def matchesQ (s : Store) (q : Nat) (r : String) : Prop :=
  ∃ h, s[q]? = some h ∧ r = litOf h.kind

/-- The result of dispatching `r` along a list of handler indices: the
first handler whose literal equals `r` produces its description, and the
empty sentinel results when none does. -/
def pathHandle (s : Store) : List Nat → String → String
  | [], _ => ""
  | q :: t, r =>
    match s[q]? with
    | none => ""
    | some h => if r = litOf h.kind then descrOf h.kind r else pathHandle s t r

/-- Whether a concrete handler claims a request is decidable. -/
instance matchesQDec (s : Store) (q : Nat) (r : String) : Decidable (matchesQ s q r) :=
  match hq : s[q]? with
  | none => isFalse (by simp [matchesQ, hq])
  | some h =>
    if hr : r = litOf h.kind then isTrue ⟨h, hq, hr⟩
    else isFalse (by simp [matchesQ, hq]; exact hr)

theorem storeSet_length (s : Store) (i : Nat) (j : Option Nat) :
    (storeSet s i j).length = s.length := by
  induction s generalizing i with
  | nil => rfl
  | cons h t ih =>
    cases i with
    | zero => rfl
    | succ n => simpa [storeSet] using ih n

theorem storeSet_getElem_self (s : Store) (i : Nat) (j : Option Nat) :
    (storeSet s i j)[i]? = s[i]?.map (fun h => ⟨h.kind, j⟩) := by
  induction s generalizing i with
  | nil => simp [storeSet]
  | cons h t ih =>
    cases i with
    | zero => simp [storeSet]
    | succ n => simpa [storeSet] using ih n

theorem storeSet_getElem_ne (s : Store) (i : Nat) (j : Option Nat) (b : Nat)
    (hne : b ≠ i) : (storeSet s i j)[b]? = s[b]? := by
  induction s generalizing i b with
  | nil => simp [storeSet]
  | cons h t ih =>
    cases i with
    | zero =>
      cases b with
      | zero => exact absurd rfl hne
      | succ n => simp [storeSet]
    | succ m =>
      cases b with
      | zero => simp [storeSet]
      | succ n => simpa [storeSet] using ih m n (by omega)

theorem handleOp_fst (s : Store) (fuel : Nat) :
    ∀ (i : Nat) (r : String), (HandleOp s fuel i r).1 = s := by
  induction fuel with
  | zero => intro i r; rfl
  | succ f ih =>
    intro i r
    unfold HandleOp
    cases hg : s[i]? with
    | none => rfl
    | some h =>
      by_cases hr : r = litOf h.kind
      · simp [hg, hr]
      · cases hn : h.next with
        | none => simp [hg, hr, hn]
        | some j => simp [hg, hr, hn, ih]

theorem handleF_match (s : Store) (fuel i : Nat) (r : String) (h : HandlerObj)
    (hget : s[i]? = some h) (hr : r = litOf h.kind) :
    HandleF s (fuel + 1) i r = some (descrOf h.kind r) := by
  simp [HandleF, HandleOp, hget, hr]

theorem handleF_delegate (s : Store) (fuel i : Nat) (r : String)
    (h : HandlerObj) (j : Nat) (hget : s[i]? = some h)
    (hr : r ≠ litOf h.kind) (hn : h.next = some j) :
    HandleF s (fuel + 1) i r = HandleF s fuel j r := by
  simp [HandleF, HandleOp, hget, hr, hn]

theorem handleF_last (s : Store) (fuel i : Nat) (r : String) (h : HandlerObj)
    (hget : s[i]? = some h) (hr : r ≠ litOf h.kind) (hn : h.next = none) :
    HandleF s (fuel + 1) i r = some "" := by
  simp [HandleF, HandleOp, hget, hr, hn]

theorem descrOf_ne_empty (k : HKind) (r : String) : descrOf k r ≠ "" := by
  intro hcontra
  have hlen := congrArg String.length hcontra
  simp [descrOf, String.length_append] at hlen
  exact absurd hlen.1.1.1.1.2 (by decide)

theorem litOf_inj (k₁ k₂ : HKind) (h : litOf k₁ = litOf k₂) : k₁ = k₂ := by
  cases k₁ <;> cases k₂ <;> revert h <;> decide

theorem matchesQ_some {s : Store} {q : Nat} {h : HandlerObj}
    (hget : s[q]? = some h) (r : String) :
    matchesQ s q r ↔ r = litOf h.kind := by
  simp [matchesQ, hget]

theorem pathFrom_handle {s : Store} {i : Nat} {p : List Nat}
    (hp : PathFrom s i p) :
    ∀ (r : String) (fuel : Nat), p.length ≤ fuel →
      HandleF s fuel i r = some (pathHandle s p r) := by
  induction hp with
  | last i h hget hnext =>
    intro r fuel hfuel
    cases fuel with
    | zero => simp at hfuel
    | succ f =>
      by_cases hr : r = litOf h.kind
      · rw [handleF_match s f i r h hget hr]
        simp [pathHandle, hget, hr]
      · rw [handleF_last s f i r h hget hr hnext]
        simp [pathHandle, hget, hr]
  | step i h j p hget hnext htail ih =>
    intro r fuel hfuel
    cases fuel with
    | zero => simp at hfuel
    | succ f =>
      by_cases hr : r = litOf h.kind
      · rw [handleF_match s f i r h hget hr]
        simp [pathHandle, hget, hr]
      · rw [handleF_delegate s f i r h j hget hr hnext]
        have hle : p.length ≤ f := by simp at hfuel; omega
        rw [ih r f hle]
        simp [pathHandle, hget, hr]

theorem pathFrom_resolves {s : Store} {i : Nat} {p : List Nat}
    (hp : PathFrom s i p) : ∀ q ∈ p, ∃ h, s[q]? = some h := by
  induction hp with
  | last i h hget hnext =>
    intro q hq
    rw [List.mem_singleton] at hq
    exact ⟨h, hq ▸ hget⟩
  | step i h j p hget hnext htail ih =>
    intro q hq
    rcases List.mem_cons.mp hq with h1 | h2
    · exact ⟨h, h1 ▸ hget⟩
    · exact ih q h2

theorem pathFrom_drop {s : Store} {i : Nat} {p : List Nat}
    (hp : PathFrom s i p) :
    ∀ (a : Nat) (ha : a < p.length), PathFrom s p[a] (p.drop a) := by
  induction hp with
  | last i h hget hnext =>
    intro a ha
    have ha0 : a = 0 := by simp at ha; omega
    subst ha0
    simpa using PathFrom.last i h hget hnext
  | step i h j p hget hnext htail ih =>
    intro a ha
    cases a with
    | zero => simpa using PathFrom.step i h j p hget hnext htail
    | succ n =>
      have hn : n < p.length := by simp at ha; omega
      simpa using ih n hn

theorem pathHandle_empty_iff {s : Store} {i : Nat} {p : List Nat}
    (hp : PathFrom s i p) (r : String) :
    pathHandle s p r = "" ↔ ∀ q ∈ p, ¬ matchesQ s q r := by
  induction hp with
  | last i h hget hnext =>
    by_cases hr : r = litOf h.kind
    · refine iff_of_false ?_ ?_
      · simpa [pathHandle, hget, hr] using descrOf_ne_empty h.kind r
      · intro hall
        exact hall i (List.mem_singleton_self i) ((matchesQ_some hget r).mpr hr)
    · refine iff_of_true (by simp [pathHandle, hget, hr]) ?_
      intro q hq
      rw [List.mem_singleton] at hq
      subst hq
      rw [matchesQ_some hget r]
      exact hr
  | step i h j p hget hnext htail ih =>
    by_cases hr : r = litOf h.kind
    · refine iff_of_false ?_ ?_
      · simpa [pathHandle, hget, hr] using descrOf_ne_empty h.kind r
      · intro hall
        exact hall i (List.mem_cons_self i p) ((matchesQ_some hget r).mpr hr)
    · rw [show pathHandle s (i :: p) r = pathHandle s p r from by
        simp [pathHandle, hget, hr]]
      rw [ih]
      constructor
      · intro hall q hq
        rcases List.mem_cons.mp hq with h1 | h2
        · subst h1
          rw [matchesQ_some hget r]
          exact hr
        · exact hall q h2
      · intro hall q hq
        exact hall q (List.mem_cons_of_mem i hq)

theorem pathHandle_append (s : Store) (r : String) (p₁ p₂ : List Nat)
    (h₁ : ∀ q ∈ p₁, ∃ h, s[q]? = some h ∧ r ≠ litOf h.kind) :
    pathHandle s (p₁ ++ p₂) r = pathHandle s p₂ r := by
  induction p₁ with
  | nil => rfl
  | cons q t ih =>
    rcases h₁ q (List.mem_cons_self q t) with ⟨h, hget, hr⟩
    rw [show pathHandle s (q :: t ++ p₂) r = pathHandle s (t ++ p₂) r from by
      simp [pathHandle, hget, hr]]
    exact ih (fun q' hq' => h₁ q' (List.mem_cons_of_mem q hq'))

theorem mem_drop_index {p : List Nat} {a q : Nat} (hq : q ∈ p.drop a) :
    ∃ b, ∃ hb : b < p.length, a ≤ b ∧ p[b] = q := by
  rcases List.mem_iff_getElem.mp hq with ⟨n, hn, hget⟩
  have hlen : n < p.length - a := by simpa [List.length_drop] using hn
  refine ⟨a + n, by omega, by omega, ?_⟩
  rw [← List.getElem_drop p]
  exact hget

theorem mem_take_drop_index {p : List Nat} {a t q : Nat}
    (hq : q ∈ (p.drop a).take t) :
    ∃ b, ∃ hb : b < p.length, a ≤ b ∧ b < a + t ∧ p[b] = q := by
  rcases List.mem_iff_getElem.mp hq with ⟨n, hn, hget⟩
  have hn2 : n < t := by
    have := hn
    simp [List.length_take] at this
    omega
  rw [List.getElem_take] at hget
  have hn3 : n < (p.drop a).length := by
    have := hn
    simp [List.length_take] at this
    simp [List.length_drop]
    omega
  rw [List.getElem_drop p] at hget
  have hb : a + n < p.length := by
    simp [List.length_drop] at hn3
    omega
  exact ⟨a + n, hb, by omega, by omega, hget⟩

theorem demo_path2 : PathFrom demoStore 2 [2] :=
  PathFrom.last 2 ⟨.dog, none⟩ (by decide) rfl

theorem demo_path1 : PathFrom demoStore 1 [1, 2] :=
  PathFrom.step 1 ⟨.squirrel, some 2⟩ 2 [2] (by decide) rfl demo_path2

theorem demo_path : PathFrom demoStore 0 [0, 1, 2] :=
  PathFrom.step 0 ⟨.monkey, some 1⟩ 1 [1, 2] (by decide) rfl demo_path1

/-- C1: `Handle` follows the source algorithm exactly: a handler whose
literal matches the request returns its own descriptive result without
forwarding, and a non-matching handler with an installed successor returns
the successor's `Handle` applied to the unmodified request. -/
theorem chain_c1_dispatch_algorithm (s : Store) (fuel i : Nat) (r : String)
    (h : HandlerObj) (hget : s[i]? = some h) :
    (r = litOf h.kind → HandleF s (fuel + 1) i r = some (descrOf h.kind r)) ∧
    (r ≠ litOf h.kind → ∀ j, h.next = some j →
      HandleF s (fuel + 1) i r = HandleF s fuel j r) :=
  ⟨fun hr => handleF_match s fuel i r h hget hr,
   fun hr j hj => handleF_delegate s fuel i r h j hget hr hj⟩

theorem chain_c1_witness :
    HandleF demoStore 3 0 "Banana" = some (descrOf HKind.monkey "Banana") ∧
    HandleF demoStore 3 0 "Nut" = HandleF demoStore 2 1 "Nut" := by
  have h1 := chain_c1_dispatch_algorithm demoStore 2 0 "Banana" ⟨.monkey, some 1⟩
    (by decide)
  have h2 := chain_c1_dispatch_algorithm demoStore 2 0 "Nut" ⟨.monkey, some 1⟩
    (by decide)
  exact ⟨h1.1 (by decide), h2.2 (by decide) 1 rfl⟩

/-- C3: `SetNext` installs the argument as the receiver's successor and
returns the argument, not the receiver, so the fluent call
`a.SetNext(b).SetNext(c)` leaves `a`'s successor at `b` and sets `b`'s
successor to `c` rather than attaching both to `a`. -/
theorem chain_c3_fluent_linking (s : Store) (a b c : Nat)
    (ha : a < s.length) (hb : b < s.length) (hab : a ≠ b) :
    (SetNext s a (some b)).2 = some b ∧
    (SetNext s a (some b)).2 ≠ some a ∧
    (SetNext ((SetNext s a (some b)).1) b (some c)).2 = some c ∧
    ((SetNext ((SetNext s a (some b)).1) b (some c)).1)[a]?.map HandlerObj.next
      = some (some b) ∧
    ((SetNext ((SetNext s a (some b)).1) b (some c)).1)[b]?.map HandlerObj.next
      = some (some c) := by
  refine ⟨rfl, ?_, rfl, ?_, ?_⟩
  · intro hcontra
    have hba : b = a := Option.some_inj.mp hcontra
    exact hab hba.symm
  · show (storeSet (storeSet s a (some b)) b (some c))[a]?.map HandlerObj.next
      = some (some b)
    rw [storeSet_getElem_ne _ b (some c) a hab]
    rw [storeSet_getElem_self, List.getElem?_eq_getElem ha]
    simp
  · show (storeSet (storeSet s a (some b)) b (some c))[b]?.map HandlerObj.next
      = some (some c)
    rw [storeSet_getElem_self]
    rw [storeSet_getElem_ne s a (some b) b (Ne.symm hab)]
    rw [List.getElem?_eq_getElem hb]
    simp

theorem chain_c3_witness :
    ((SetNext ((SetNext demoStore0 0 (some 1)).1) 1 (some 2)).1)[0]?.map
      HandlerObj.next = some (some 1) ∧
    ((SetNext ((SetNext demoStore0 0 (some 1)).1) 1 (some 2)).1)[1]?.map
      HandlerObj.next = some (some 2) := by
  have h := chain_c3_fluent_linking demoStore0 0 1 2 (by decide) (by decide)
    (by decide)
  exact ⟨h.2.2.2.1, h.2.2.2.2⟩

/-- C4: on every acyclic chain an unmatched request is a defined, non-error
outcome: `Handle` returns a value (no failure mode), and that value is the
empty sentinel exactly when no handler reachable from the entry point
claims the request. -/
theorem chain_c4_unhandled_sentinel {s : Store} {e0 : Nat} {p : List Nat}
    (hp : PathFrom s e0 p) (r : String) (fuel : Nat)
    (hfuel : p.length ≤ fuel) :
    (∃ res, HandleF s fuel e0 r = some res) ∧
    (HandleF s fuel e0 r = some "" ↔ ∀ q ∈ p, ¬ matchesQ s q r) := by
  rw [pathFrom_handle hp r fuel hfuel]
  exact ⟨⟨_, rfl⟩, by rw [Option.some_inj]; exact pathHandle_empty_iff hp r⟩

theorem chain_c4_witness :
    HandleF demoStore 3 0 "Cup of coffee" = some "" := by
  have h := chain_c4_unhandled_sentinel demo_path "Cup of coffee" 3 (by decide)
  exact h.2.mpr (by decide)

/-- C5: the literal scenario of `main`: with Monkey → Squirrel → Dog, the
request "Nut" entered at Monkey yields Squirrel's description, "Banana" at
Monkey yields Monkey's description, "Cup of coffee" at Monkey yields the
unhandled sentinel, "Nut" at Squirrel yields Squirrel's description, and
"Banana" at Squirrel yields the unhandled sentinel. -/
theorem chain_c5_literal_scenario :
    Handle demoStore 0 "Nut" = some (descrOf HKind.squirrel "Nut") ∧
    Handle demoStore 0 "Banana" = some (descrOf HKind.monkey "Banana") ∧
    Handle demoStore 0 "Cup of coffee" = some "" ∧
    Handle demoStore 1 "Nut" = some (descrOf HKind.squirrel "Nut") ∧
    Handle demoStore 1 "Banana" = some "" := by
  exact ⟨by decide, by decide, by decide, by decide, by decide⟩

/-- C6: dispatch is idempotent and deterministic: a `Handle` call leaves the
store exactly as it was, so an immediately repeated call runs on the same
topology and returns the identical result; the outcome is a pure function
of store, entry point and request. -/
theorem chain_c6_idempotent_deterministic (s : Store) (fuel i : Nat)
    (r : String) :
    (HandleOp s fuel i r).1 = s ∧
    HandleOp (HandleOp s fuel i r).1 fuel i r = HandleOp s fuel i r := by
  have h := handleOp_fst s fuel i r
  exact ⟨h, by rw [h]⟩

/-- C7: on every acyclic chain `Handle` terminates with a defined result
using no more traversal fuel than the chain has handlers, and giving it any
more fuel cannot change the result. -/
theorem chain_c7_terminates {s : Store} {i : Nat} {p : List Nat}
    (hp : PathFrom s i p) (r : String) :
    ∃ res, HandleF s p.length i r = some res ∧
      ∀ fuel, p.length ≤ fuel → HandleF s fuel i r = some res :=
  ⟨pathHandle s p r, pathFrom_handle hp r p.length le_rfl,
   fun fuel hf => pathFrom_handle hp r fuel hf⟩

theorem chain_c7_witness :
    ∃ res, HandleF demoStore 3 0 "MeatBall" = some res ∧
      ∀ fuel, 3 ≤ fuel → HandleF demoStore fuel 0 "MeatBall" = some res := by
  have h := chain_c7_terminates demo_path "MeatBall"
  simpa using h

/-- C8: `Handle` has no side effect on pipeline state (the store after any
call is exactly the store before), and `SetNext` replaces precisely the
receiver's successor link in one step, leaving every other handler's link
unchanged. -/
theorem chain_c8_frame (s : Store) (fuel i : Nat) (r : String) (a : Nat)
    (j : Option Nat) :
    (HandleOp s fuel i r).1 = s ∧
    (SetNext s a j).1[a]? = s[a]?.map (fun h => ⟨h.kind, j⟩) ∧
    (∀ b, b ≠ a → (SetNext s a j).1[b]? = s[b]?) :=
  ⟨handleOp_fst s fuel i r, storeSet_getElem_self s a j,
   fun b hb => storeSet_getElem_ne s a j b hb⟩

theorem chain_c8_witness :
    (HandleOp demoStore 3 0 "Nut").1 = demoStore ∧
    (SetNext demoStore 1 none).1[0]? = some ⟨HKind.monkey, some 1⟩ := by
  have h := chain_c8_frame demoStore 3 0 "Nut" 1 none
  refine ⟨h.1, ?_⟩
  rw [h.2.2 0 (by decide)]
  decide

/-- C2: when exactly one handler `H` on an acyclic chain claims request `r`,
entering at any handler at or before `H` yields `H`'s description for `r`,
and entering strictly after `H` yields the unhandled empty sentinel, since
`H` is unreachable from there. -/
theorem chain_c2_unique_match_entry_points {s : Store} {e0 : Nat}
    {p : List Nat} (hp : PathFrom s e0 p) (r : String) (m : Nat)
    (hm : m < p.length) (H : HandlerObj) (hH : s[p[m]]? = some H)
    (huniq : ∀ (a : Nat) (ha : a < p.length), matchesQ s p[a] r ↔ a = m) :
    (∀ (a : Nat) (ha : a < p.length), a ≤ m → ∀ fuel, p.length ≤ fuel →
      HandleF s fuel p[a] r = some (descrOf H.kind r)) ∧
    (∀ (a : Nat) (ha : a < p.length), m < a → ∀ fuel, p.length ≤ fuel →
      HandleF s fuel p[a] r = some "") := by
  have hrH : r = litOf H.kind := (matchesQ_some hH r).mp ((huniq m hm).mpr rfl)
  constructor
  · intro a ha ham fuel hfuel
    have hpa : PathFrom s p[a] (p.drop a) := pathFrom_drop hp a ha
    have hflen : (p.drop a).length ≤ fuel := by
      rw [List.length_drop]
      omega
    rw [pathFrom_handle hpa r fuel hflen, Option.some_inj]
    have hskip : ∀ q ∈ (p.drop a).take (m - a),
        ∃ h, s[q]? = some h ∧ r ≠ litOf h.kind := by
      intro q hq
      rcases mem_take_drop_index hq with ⟨b, hb, hab, hbm, hbq⟩
      have hnm : ¬ matchesQ s p[b] r := by
        intro hmq
        have : b = m := (huniq b hb).mp hmq
        omega
      rcases pathFrom_resolves hp q (by rw [← hbq]; exact List.getElem_mem hb)
        with ⟨h, hget⟩
      refine ⟨h, hget, fun hr => ?_⟩
      apply hnm
      rw [matchesQ_some (show s[p[b]]? = some h by rw [hbq]; exact hget) r]
      exact hr
    have hdecomp : p.drop a = (p.drop a).take (m - a) ++ p.drop m := by
      conv_lhs => rw [← List.take_append_drop (m - a) (p.drop a)]
      rw [List.drop_drop, show a + (m - a) = m by omega]
    rw [hdecomp, pathHandle_append s r _ _ hskip,
      List.drop_eq_getElem_cons hm]
    simp [pathHandle, hH, ← hrH]
  · intro a ha ham fuel hfuel
    have hpa : PathFrom s p[a] (p.drop a) := pathFrom_drop hp a ha
    have hflen : (p.drop a).length ≤ fuel := by
      rw [List.length_drop]
      omega
    rw [pathFrom_handle hpa r fuel hflen, Option.some_inj]
    refine (pathHandle_empty_iff hpa r).mpr ?_
    intro q hq hmq
    rcases mem_drop_index hq with ⟨b, hb, hab, hbq⟩
    have : b = m := by
      refine (huniq b hb).mp ?_
      rw [hbq]
      exact hmq
    omega

theorem chain_c2_witness :
    HandleF demoStore 3 0 "Nut" = some (descrOf HKind.squirrel "Nut") ∧
    HandleF demoStore 3 2 "Nut" = some "" := by
  have h := chain_c2_unique_match_entry_points demo_path "Nut" 1 (by decide)
    ⟨.squirrel, some 2⟩ (by decide) (by decide)
  exact ⟨h.1 0 (by decide) (by decide) 3 (by decide),
    h.2 2 (by decide) (by decide) 3 (by decide)⟩

/-- C9: a freshly constructed handler has no successor; a handler whose
successor link is null never delegates, returning its own description on a
match and the empty sentinel otherwise; and `SetNext` accepts a null
argument, truncating the chain so the receiver again never delegates. -/
theorem chain_c9_null_successor :
    (∀ k, (newHandler k).next = none) ∧
    (∀ (s : Store) (i : Nat) (h : HandlerObj) (r : String) (fuel : Nat),
      s[i]? = some h → h.next = none →
      HandleF s (fuel + 1) i r =
        some (if r = litOf h.kind then descrOf h.kind r else "")) ∧
    (∀ (s : Store) (i : Nat), (SetNext s i none).2 = none ∧
      (SetNext s i none).1[i]? = s[i]?.map (fun h => ⟨h.kind, none⟩)) ∧
    (∀ (s : Store) (i : Nat) (h : HandlerObj) (r : String) (fuel : Nat),
      s[i]? = some h →
      HandleF ((SetNext s i none).1) (fuel + 1) i r =
        some (if r = litOf h.kind then descrOf h.kind r else "")) := by
  refine ⟨fun k => rfl, ?_, fun s i => ⟨rfl, storeSet_getElem_self s i none⟩, ?_⟩
  · intro s i h r fuel hget hnext
    by_cases hr : r = litOf h.kind
    · rw [handleF_match s fuel i r h hget hr, if_pos hr]
    · rw [handleF_last s fuel i r h hget hr hnext, if_neg hr]
  · intro s i h r fuel hget
    have hget2 : (SetNext s i none).1[i]? = some ⟨h.kind, none⟩ := by
      show (storeSet s i none)[i]? = some ⟨h.kind, none⟩
      rw [storeSet_getElem_self, hget]
      rfl
    by_cases hr : r = litOf h.kind
    · rw [handleF_match _ fuel i r ⟨h.kind, none⟩ hget2 hr, if_pos hr]
    · rw [handleF_last _ fuel i r ⟨h.kind, none⟩ hget2 hr rfl, if_neg hr]

theorem chain_c9_witness :
    HandleF [newHandler HKind.monkey] 1 0 "Banana"
      = some (descrOf HKind.monkey "Banana") ∧
    HandleF ((SetNext demoStore 0 none).1) 1 0 "Nut" = some "" := by
  have h := chain_c9_null_successor
  constructor
  · have h1 := h.2.1 [newHandler HKind.monkey] 0 (newHandler HKind.monkey)
      "Banana" 0 (by decide) rfl
    exact h1.trans (by decide)
  · have h2 := h.2.2.2 demoStore 0 ⟨.monkey, some 1⟩ "Nut" 0 (by decide)
    exact h2.trans (by decide)

/-- C10: each concrete handler matches by exact whole-string equality
against its literal ("Banana", "Nut", "MeatBall"); the literals are
pairwise distinct, so on a chain with pairwise-distinct handler kinds at
most one handler claims any request; and any request differing from a
handler's literal falls through to its successor or, without one, to the
empty sentinel. -/
theorem chain_c10_exact_literal_predicates :
    (litOf .monkey = "Banana" ∧ litOf .squirrel = "Nut"
      ∧ litOf .dog = "MeatBall") ∧
    (∀ k₁ k₂ : HKind, litOf k₁ = litOf k₂ → k₁ = k₂) ∧
    (∀ (s : Store) (e0 : Nat) (p : List Nat), PathFrom s e0 p →
      (∀ q₁ ∈ p, ∀ q₂ ∈ p, q₁ ≠ q₂ →
        s[q₁]?.map HandlerObj.kind ≠ s[q₂]?.map HandlerObj.kind) →
      ∀ (r : String) (q₁ q₂ : Nat), q₁ ∈ p → q₂ ∈ p →
        matchesQ s q₁ r → matchesQ s q₂ r → q₁ = q₂) ∧
    (∀ (s : Store) (i fuel : Nat) (h : HandlerObj) (r : String),
      s[i]? = some h → r ≠ litOf h.kind →
      HandleF s (fuel + 1) i r =
        match h.next with
        | some j => HandleF s fuel j r
        | none => some "") := by
  refine ⟨⟨rfl, rfl, rfl⟩, litOf_inj, ?_, ?_⟩
  · intro s e0 p hp hdist r q₁ q₂ hq₁ hq₂ hm₁ hm₂
    by_contra hne
    rcases hm₁ with ⟨h₁, hget₁, hr₁⟩
    rcases hm₂ with ⟨h₂, hget₂, hr₂⟩
    have hk : h₁.kind = h₂.kind := litOf_inj _ _ (hr₁ ▸ hr₂)
    apply hdist q₁ hq₁ q₂ hq₂ hne
    rw [hget₁, hget₂]
    simp [hk]
  · intro s i fuel h r hget hr
    cases hn : h.next with
    | none => rw [handleF_last s fuel i r h hget hr hn]
    | some j => rw [handleF_delegate s fuel i r h j hget hr hn]

theorem chain_c10_witness :
    litOf HKind.monkey = "Banana" ∧
    HandleF demoStore 3 0 "banana" = HandleF demoStore 2 1 "banana" := by
  have h := chain_c10_exact_literal_predicates
  refine ⟨h.1.1, ?_⟩
  exact h.2.2.2 demoStore 0 2 ⟨.monkey, some 1⟩ "banana" (by decide) (by decide)

end ChainDemo
